import Mathlib

/-!
Verification of the pixel-preparation and block-encoding pipeline of the dds
repository (src/bindings.cpp, src/dds.cpp, src/dds.h): thin C bindings around
the external bc7enc BC7 block compressor.  The float-input variant
(bindings.cpp) normalizes a float RGBA image into an 8-bit canonical image —
reading the perceptual flag before the compressor is initialized, applying the
gamma curve to color channels only, then quantizing and clamping — and the
byte-input variant (dds.cpp) memcpy's the caller's bytes verbatim.  Machine
floats are modelled exactly over ℚ, with NaN/undefined behaviour modelled as
`none`; the value of `pow` on positive bases other than 0 and 1 is irrational
and is abstracted by a function parameter `gp`.  The external compressor
(rdo_bc::rdo_bc_encoder) is not part of the repository; where a claim depends
on it, its behaviour is modelled from the spec and marked as such.
-/

namespace DDS

/-- Compression parameters handed to the compressor (rdo_bc::rdo_bc_params):
`m_perceptual` selects the gamma-aware path (read at bindings.cpp line 40);
`m_tuning` stands for the further tuning fields, consumed by the compressor and
irrelevant to the bindings. -/
structure rdo_bc_params where
  m_perceptual : Bool
  m_tuning : ℕ
deriving DecidableEq

/-- Canonical 8-bit RGBA image handed to the compressor (utils::image_u8):
`pixels` is the flat byte sequence, 4 bytes per pixel in RGBA order. -/
structure image_u8 where
  width : ℕ
  height : ℕ
  pixels : List ℕ
deriving DecidableEq

/-- Embedding of the quantize-and-clamp step (bindings.cpp lines 41-47):
`sample = sample * 255.0f + 0.5f`, clamp to [0, 255], store into a uint8.
The float-to-uint8 conversion truncates toward zero; after the clamp the value
is nonnegative, so truncation is the floor.  Float arithmetic is modelled
exactly over ℚ. -/
def quantByte (s : ℚ) : ℕ :=
  let t := s * 255 + 1/2
  if t < 0 then 0 else if t > 255 then 255 else (⌊t⌋).toNat

/-- Embedding of C `pow(sample, 1.0f / 2.2f)` as called at bindings.cpp
line 40.  The exponent is positive and not an integer, so per C99 F.10.4.4 a
negative base yields NaN (modelled as `none`), `pow(0, e) = 0` and
`pow(1, e) = 1` exactly.  For other positive bases the value `s ^ (1/2.2)` is
irrational; the float result is abstracted by the parameter `gp`. -/
def cpowInv22 (gp : ℚ → ℚ) (s : ℚ) : Option ℚ :=
  if s < 0 then none
  else if s = 0 then some 0
  else if s = 1 then some 1
  else some (gp s)

/-- Embedding of the per-sample body of the normalization loop (bindings.cpp
lines 39-47): the gamma curve is applied exactly when `params->m_perceptual`
holds and the channel is not alpha (index 3), then the sample is quantized and
stored.  A NaN coming out of `pow` propagates through the affine step, fails
both clamp comparisons, and reaches the float-to-uint8 conversion, which is
undefined behaviour: modelled as `none`. -/
def normalizeSample (gp : ℚ → ℚ) (perceptual : Bool) (channel : ℕ) (s : ℚ) :
    Option ℕ :=
  Option.map quantByte (if perceptual = true ∧ channel ≠ 3 then cpowInv22 gp s else some s)

/-- Option-valued map over a list, `none` as soon as one element fails: threads
the undefined-behaviour case through the normalization loop. -/
def mapOpt (f : ℕ → Option ℕ) : List ℕ → Option (List ℕ)
  | [] => some []
  | a :: as =>
    match f a, mapOpt f as with
    | some b, some bs => some (b :: bs)
    | _, _ => none

/-- Byte `j` of the canonical image on the float path: the loop reads
`pixels[i * 4 + channel]` — an out-of-range access of the caller's buffer is
undefined behaviour, modelled as `none` — and runs the per-sample pipeline.
With the flattened index `j = i * 4 + channel`, the channel is `j % 4`. -/
def normIdx (gp : ℚ → ℚ) (perceptual : Bool) (pixels : List ℚ) (j : ℕ) :
    Option ℕ :=
  (pixels.get? j).bind fun s => normalizeSample gp perceptual (j % 4) s

/-- Embedding of the normalization loop of the float-input bc7enc_encode
(bindings.cpp lines 33-50): for `i < (size_t)width * (size_t)height` and
`channel < 4`, i.e. the flattened indices `j < width * height * 4` in order,
produce the canonical bytes.  The index arithmetic is carried out in `size_t`
and does not wrap for any realizable image. -/
def normalizeFloat (gp : ℚ → ℚ) (perceptual : Bool) (width height : ℕ)
    (pixels : List ℚ) : Option (List ℕ) :=
  mapOpt (normIdx gp perceptual pixels) (List.range (width * height * 4))

/-- Modelled from the spec: the external bc7enc block compressor, consumed as
a capability (spec section 6); rdo_bc::rdo_bc_encoder is not part of this
repository.  `initOk` and `encodeOk` give its failure behaviour, `initMutate`
the in-place rewrite of the parameters that init may perform, and `emit` the
bytes of the compressed stream it produces. -/
structure Compressor where
  initOk : image_u8 → rdo_bc_params → Bool
  initMutate : image_u8 → rdo_bc_params → rdo_bc_params
  encodeOk : image_u8 → rdo_bc_params → Bool
  emit : ℕ → ℕ

/-- Modelled from the spec: rdo_bc_encoder::get_total_blocks_size_in_bytes
(external to this repository) — 16 bytes per 4x4 tile and
ceil(width/4) * ceil(height/4) tiles (spec sections 3 and 4.2). -/
def totalBlocksSize (width height : ℕ) : ℕ :=
  16 * ((width + 3) / 4) * ((height + 3) / 4)

/-- Modelled from the spec: the compressed-block buffer held by the encoder
after a successful encode — one 16-byte block per tile, hence exactly
`totalBlocksSize width height` bytes of compressor output. -/
def blocksBuffer (C : Compressor) (width height : ℕ) : List ℕ :=
  (List.range (totalBlocksSize width height)).map C.emit

/-- State of one encoder handle, modelled from the spec (section 4.2):
`empty` until a successful encode, then `encoded` with the dimensions of the
encoded image and the owned block buffer. -/
inductive SessionState where
  | empty : SessionState
  | encoded : ℕ → ℕ → List ℕ → SessionState
deriving DecidableEq

/-- Embedding of bc7enc_init (bindings.cpp lines 15-17): a freshly constructed
encoder on which no encode has run. -/
def bc7enc_init : SessionState := SessionState.empty

/-- The compressor stage of bc7enc_encode (bindings.cpp lines 52-57):
`encoder->init(img, *params)` — which may mutate `*params` in place — followed
by `encoder->encode()`; a false return from either is surfaced as false.  The
session-state bookkeeping of the external encoder (failure leaves no block
buffer committed) is modelled from the spec. -/
def compressStage (C : Compressor) (params : rdo_bc_params) (width height : ℕ) :
    Option (List ℕ) → Option (Bool × SessionState × rdo_bc_params)
  | none => none
  | some img =>
    let I : image_u8 := ⟨width, height, img⟩
    let params1 := C.initMutate I params
    if C.initOk I params then
      if C.encodeOk I params1 then
        some (true, SessionState.encoded width height (blocksBuffer C width height), params1)
      else some (false, SessionState.empty, params1)
    else some (false, SessionState.empty, params1)

/-- Embedding of the float-input bc7enc_encode (bindings.cpp lines 22-58): the
image is normalized first, reading `params->m_perceptual` before the encoder is
touched (see the source comment at lines 29-32), and only then is the
compressor initialized and run.  `none` models undefined behaviour inside the
normalization loop. -/
def bc7enc_encode (C : Compressor) (gp : ℚ → ℚ) (params : rdo_bc_params)
    (width height : ℕ) (pixels : List ℚ) :
    Option (Bool × SessionState × rdo_bc_params) :=
  compressStage C params width height
    (normalizeFloat gp params.m_perceptual width height pixels)

/-- Embedding of bc7enc_getBlocks (bindings.cpp lines 60-62): a bare
pass-through of `encoder->get_blocks()`.  Modelled from the spec for the
external encoder: before any successful encode there is no block buffer and
the returned pointer is null, modelled as `none`. -/
def bc7enc_getBlocks : SessionState → Option (List ℕ)
  | SessionState.empty => none
  | SessionState.encoded _ _ blocks => some blocks

/-- Embedding of bc7enc_getTotalBlocksSizeInBytes (bindings.cpp lines 64-66):
pass-through of `encoder->get_total_blocks_size_in_bytes()`, modelled from the
spec as `totalBlocksSize` of the encoded dimensions after a successful encode
and 0 before. -/
def bc7enc_getTotalBlocksSizeInBytes : SessionState → ℕ
  | SessionState.empty => 0
  | SessionState.encoded w h _ => totalBlocksSize w h

/-- Number of bytes the byte-input variant copies (dds.cpp line 27):
`width * height * sizeof(uint32_t)`.  Both dimensions are uint32_t, so the
product `width * height` is computed modulo 2^32 before the multiplication by
`sizeof(uint32_t)` widens it to `size_t`. -/
def byteCopyCount (width height : ℕ) : ℕ :=
  (width * height % 2 ^ 32) * 4

/-- Canonical image of the byte-input bc7enc_encode (dds.cpp lines 25-27): the
first `byteCopyCount width height` bytes are memcpy'd verbatim from the input
— no transform, no parameter read — and bytes beyond the copied range were
never written (indeterminate contents, modelled as `none`).  The input buffer
is a raw pointer with no length, modelled as a byte function. -/
def byteCanonical (width height : ℕ) (pixels : ℕ → ℕ) : ℕ → Option ℕ :=
  fun j => if j < byteCopyCount width height then some (pixels j) else none

/-- A concrete compressor model that accepts every image, used to exercise the
theorems on concrete inputs. -/
def okCompressor : Compressor :=
  ⟨fun _ _ => true, fun _ p => p, fun _ _ => true, fun _ => 0⟩

/-- A concrete compressor model whose init rewrites the perceptual flag in
place, as the spec warns the real compressor may do. -/
def flagFlipCompressor : Compressor :=
  ⟨fun _ _ => true, fun _ p => ⟨!p.m_perceptual, p.m_tuning⟩, fun _ _ => true, fun _ => 1⟩

/-- A concrete compressor model whose init fails. -/
def failCompressor : Compressor :=
  ⟨fun _ _ => false, fun _ p => p, fun _ _ => true, fun _ => 0⟩

end DDS

namespace DDS

/-- Unfolding equation for `mapOpt` on a cons cell. -/
theorem mapOpt_cons (f : ℕ → Option ℕ) (a : ℕ) (as : List ℕ) :
    mapOpt f (a :: as) =
      match f a, mapOpt f as with
      | some b, some bs => some (b :: bs)
      | _, _ => none := rfl

/-- A successful `mapOpt` run produces as many outputs as inputs. -/
theorem mapOpt_length {f : ℕ → Option ℕ} :
    ∀ {l r : List ℕ}, mapOpt f l = some r → r.length = l.length := by
  intro l
  induction l with
  | nil =>
    intro r h
    simp only [mapOpt, Option.some.injEq] at h
    subst h
    rfl
  | cons a as ih =>
    intro r h
    rw [mapOpt_cons] at h
    cases hfa : f a with
    | none => rw [hfa] at h; exact absurd h (by simp)
    | some b =>
      cases hrest : mapOpt f as with
      | none => rw [hfa, hrest] at h; exact absurd h (by simp)
      | some bs =>
        rw [hfa, hrest] at h
        simp only [Option.some.injEq] at h
        subst h
        simp [ih hrest]

/-- Element `k` of a successful `mapOpt` run is `f` of element `k` of the
input. -/
theorem mapOpt_get? {f : ℕ → Option ℕ} :
    ∀ {l r : List ℕ}, mapOpt f l = some r → ∀ k, r.get? k = (l.get? k).bind f := by
  intro l
  induction l with
  | nil =>
    intro r h k
    simp only [mapOpt, Option.some.injEq] at h
    subst h
    simp
  | cons a as ih =>
    intro r h k
    rw [mapOpt_cons] at h
    cases hfa : f a with
    | none => rw [hfa] at h; exact absurd h (by simp)
    | some b =>
      cases hrest : mapOpt f as with
      | none => rw [hfa, hrest] at h; exact absurd h (by simp)
      | some bs =>
        rw [hfa, hrest] at h
        simp only [Option.some.injEq] at h
        subst h
        cases k with
        | zero => simp [hfa]
        | succ k => simpa using ih hrest k

/-- If `f` is constantly `some c` on the list, `mapOpt` yields a replicate. -/
theorem mapOpt_replicate {f : ℕ → Option ℕ} {c : ℕ} :
    ∀ {l : List ℕ}, (∀ a ∈ l, f a = some c) →
      mapOpt f l = some (List.replicate l.length c) := by
  intro l
  induction l with
  | nil => intro _; rfl
  | cons a as ih =>
    intro h
    rw [mapOpt_cons, h a (by simp), ih (fun x hx => h x (by simp [hx]))]
    simp [List.replicate]

/-- If `f` fails on any element of the list, `mapOpt` fails. -/
theorem mapOpt_none_of_mem {f : ℕ → Option ℕ} {a : ℕ} :
    ∀ {l : List ℕ}, a ∈ l → f a = none → mapOpt f l = none := by
  intro l
  induction l with
  | nil => intro h; exact absurd h (by simp)
  | cons b bs ih =>
    intro hmem hfa
    rw [mapOpt_cons]
    rcases List.mem_cons.1 hmem with hb | hbs
    · subst hb
      rw [hfa]
    · rw [ih hbs hfa]
      cases f b <;> rfl

/-- Reading inside a replicate. -/
theorem get?_replicate_of_lt {α : Type} {a : α} :
    ∀ {n k : ℕ}, k < n → (List.replicate n a).get? k = some a := by
  intro n
  induction n with
  | zero => intro k hk; exact absurd hk (by omega)
  | succ n ih =>
    intro k hk
    cases k with
    | zero => rfl
    | succ k => exact ih (by omega)

/-- Alpha samples (channel 3) are quantized without the gamma curve, whatever
the perceptual flag. -/
theorem normalizeSample_alpha (gp : ℚ → ℚ) (b : Bool) (s : ℚ) :
    normalizeSample gp b 3 s = some (quantByte s) := by
  simp [normalizeSample]

/-- With the perceptual flag off, every channel is quantized without the
gamma curve. -/
theorem normalizeSample_noperc (gp : ℚ → ℚ) (c : ℕ) (s : ℚ) :
    normalizeSample gp false c s = some (quantByte s) := by
  simp [normalizeSample]

/-- Quantizing the sample 0 stores the byte 0. -/
theorem quantByte_zero : quantByte 0 = 0 := by
  norm_num [quantByte]

/-- Quantizing the sample 1 stores the byte 255 (255.5 clamps to 255). -/
theorem quantByte_one : quantByte 1 = 255 := by
  norm_num [quantByte]

end DDS

namespace DDS

/-- A zero sample quantizes to the byte 0 on every channel and either flag:
the gamma step maps 0 to 0 and the quantizer maps 0 to 0. -/
theorem normalizeSample_zero (gp : ℚ → ℚ) (b : Bool) (c : ℕ) :
    normalizeSample gp b c 0 = some 0 := by
  by_cases hcond : b = true ∧ c ≠ 3 <;>
    simp [normalizeSample, hcond, cpowInv22, quantByte_zero]

/-- A one sample quantizes to the byte 255 on every channel and either flag:
pow(1, e) = 1 and 255.5 clamps to 255. -/
theorem normalizeSample_one (gp : ℚ → ℚ) (b : Bool) (c : ℕ) :
    normalizeSample gp b c 1 = some 255 := by
  by_cases hcond : b = true ∧ c ≠ 3 <;>
    simp [normalizeSample, hcond, cpowInv22, quantByte_one]

/-- C1: on the float path, the normalization (gamma) pass reads
`params->m_perceptual` before any compressor interaction, so the canonical
image handed to the compressor depends only on the value of the perceptual
flag at entry to encode and is unaffected by any mutation of the parameters
performed by the compressor's init: any two runs over compressors with
arbitrary mutation behaviour, from parameters agreeing on the flag, feed the
compressor stage one and the same canonical image, namely the normalization
under the entry flag. -/
theorem encode_canonical_reads_flag_before_compressor
    (gp : ℚ → ℚ) (C₁ C₂ : Compressor) (params₁ params₂ : rdo_bc_params)
    (width height : ℕ) (pixels : List ℚ)
    (hflag : params₁.m_perceptual = params₂.m_perceptual) :
    ∃ img : Option (List ℕ),
      img = normalizeFloat gp params₁.m_perceptual width height pixels ∧
      bc7enc_encode C₁ gp params₁ width height pixels =
        compressStage C₁ params₁ width height img ∧
      bc7enc_encode C₂ gp params₂ width height pixels =
        compressStage C₂ params₂ width height img := by
  refine ⟨normalizeFloat gp params₁.m_perceptual width height pixels, rfl, rfl, ?_⟩
  unfold bc7enc_encode
  rw [hflag]

/-- Witness for C1: a concrete 1x1 image, two parameter values agreeing on the
perceptual flag but differing in the tuning field, and two compressors, one of
which rewrites the flag during init. -/
theorem encode_canonical_reads_flag_before_compressor_witness :
    ∃ img : Option (List ℕ),
      img = normalizeFloat (fun s => s) (rdo_bc_params.mk true 0).m_perceptual 1 1
        [0, 0, 0, 0] ∧
      bc7enc_encode okCompressor (fun s => s) (rdo_bc_params.mk true 0) 1 1 [0, 0, 0, 0] =
        compressStage okCompressor (rdo_bc_params.mk true 0) 1 1 img ∧
      bc7enc_encode flagFlipCompressor (fun s => s) (rdo_bc_params.mk true 5) 1 1
          [0, 0, 0, 0] =
        compressStage flagFlipCompressor (rdo_bc_params.mk true 5) 1 1 img :=
  encode_canonical_reads_flag_before_compressor (fun s => s) okCompressor
    flagFlipCompressor (rdo_bc_params.mk true 0) (rdo_bc_params.mk true 5) 1 1
    [0, 0, 0, 0] rfl

/-- C2: on any float image for which both runs are defined, the alpha-channel
bytes (flattened indices j with j % 4 = 3) of the canonical image produced
with perceptual=true are bit-identical to those produced with
perceptual=false, and the gamma transform is applied exactly when the
perceptual flag is set and the channel index is not 3. -/
theorem normalize_alpha_bytes_perceptual_invariant
    (gp : ℚ → ℚ) (width height : ℕ) (pixels : List ℚ) (r₁ r₂ : List ℕ)
    (h₁ : normalizeFloat gp true width height pixels = some r₁)
    (h₂ : normalizeFloat gp false width height pixels = some r₂) :
    (∀ j, j % 4 = 3 → r₁.get? j = r₂.get? j) ∧
    (∀ s, normalizeSample gp true 3 s = normalizeSample gp false 3 s) ∧
    (∀ channel s, channel ≠ 3 →
      normalizeSample gp true channel s = Option.map quantByte (cpowInv22 gp s)) ∧
    (∀ channel s, normalizeSample gp false channel s = some (quantByte s)) := by
  refine ⟨?_, ?_, ?_, ?_⟩
  · intro j hj
    rw [mapOpt_get? h₁ j, mapOpt_get? h₂ j]
    rcases Nat.lt_or_ge j (width * height * 4) with hlt | hge
    · rw [List.get?_range hlt]
      simp only [Option.some_bind, normIdx, hj]
      cases hps : pixels.get? j with
      | none => rfl
      | some s => simp [normalizeSample_alpha]
    · have hnone : (List.range (width * height * 4)).get? j = none :=
        List.get?_eq_none.2 (by simpa using hge)
      rw [hnone]
      rfl
  · intro s
    rw [normalizeSample_alpha, normalizeSample_alpha]
  · intro channel s hc
    simp [normalizeSample, hc]
  · intro channel s
    exact normalizeSample_noperc gp channel s

/-- Witness for C2: a concrete 1x1 all-zero float image; both runs normalize
to the bytes [0, 0, 0, 0]. -/
theorem normalize_alpha_bytes_perceptual_invariant_witness :
    (∀ j, j % 4 = 3 →
      ([0, 0, 0, 0] : List ℕ).get? j = ([0, 0, 0, 0] : List ℕ).get? j) ∧
    (∀ s, normalizeSample (fun s => s) true 3 s = normalizeSample (fun s => s) false 3 s) ∧
    (∀ channel s, channel ≠ 3 →
      normalizeSample (fun s => s) true channel s =
        Option.map quantByte (cpowInv22 (fun s => s) s)) ∧
    (∀ channel s, normalizeSample (fun s => s) false channel s = some (quantByte s)) :=
  normalize_alpha_bytes_perceptual_invariant (fun s => s) 1 1 [0, 0, 0, 0]
    [0, 0, 0, 0] [0, 0, 0, 0]
    (by
      have : ∀ a ∈ List.range (1 * 1 * 4),
          normIdx (fun s => s) true [0, 0, 0, 0] a = some 0 := by
        intro a ha
        have ha4 : a < 4 := by simpa using List.mem_range.1 ha
        interval_cases a <;> simp [normIdx, normalizeSample_zero]
      simpa [normalizeFloat] using mapOpt_replicate this)
    (by
      have : ∀ a ∈ List.range (1 * 1 * 4),
          normIdx (fun s => s) false [0, 0, 0, 0] a = some 0 := by
        intro a ha
        have ha4 : a < 4 := by simpa using List.mem_range.1 ha
        interval_cases a <;> simp [normIdx, normalizeSample_zero]
      simpa [normalizeFloat] using mapOpt_replicate this)

end DDS

namespace DDS

/-- C3: the stored byte is the truncated integer part of s*255+0.5 clamped to
[0, 255] (first conjunct, stated against the claim's clamp-then-truncate
formula); a 4x4 all-(1,1,1,1) float image with perceptual=true normalizes to
all bytes 255, whatever value pow takes elsewhere; and an all-zero float input
with perceptual=false normalizes to all bytes 0 for every width and height. -/
theorem quantByte_clamp_spec_and_scenarios :
    (∀ s : ℚ, quantByte s = (⌊min (255 : ℚ) (max 0 (s * 255 + 1/2))⌋).toNat) ∧
    (∀ gp : ℚ → ℚ,
      normalizeFloat gp true 4 4 (List.replicate 64 1) =
        some (List.replicate 64 255)) ∧
    (∀ (gp : ℚ → ℚ) (width height : ℕ),
      normalizeFloat gp false width height (List.replicate (width * height * 4) 0) =
        some (List.replicate (width * height * 4) 0)) := by
  refine ⟨?_, ?_, ?_⟩
  · intro s
    have hq : quantByte s =
        if s * 255 + 1/2 < 0 then 0
        else if s * 255 + 1/2 > 255 then 255
        else (⌊s * 255 + 1/2⌋).toNat := rfl
    rw [hq]
    split_ifs with h1 h2
    · rw [max_eq_left (le_of_lt h1), min_eq_right (by norm_num : (0 : ℚ) ≤ 255)]
      simp
    · rw [max_eq_right (le_of_not_lt h1), min_eq_left (le_of_lt h2)]
      norm_num
      rfl
    · rw [max_eq_right (le_of_not_lt h1), min_eq_right (le_of_not_lt h2)]
  · intro gp
    have hall : ∀ a ∈ List.range (4 * 4 * 4),
        normIdx gp true (List.replicate 64 1) a = some 255 := by
      intro a ha
      have ha64 : a < 64 := by simpa using List.mem_range.1 ha
      have hget := @get?_replicate_of_lt ℚ 1 64 a ha64
      simp only [normIdx, hget, Option.some_bind]
      exact normalizeSample_one gp true (a % 4)
    have := mapOpt_replicate hall
    simpa [normalizeFloat] using this
  · intro gp width height
    have hall : ∀ a ∈ List.range (width * height * 4),
        normIdx gp false (List.replicate (width * height * 4) 0) a = some 0 := by
      intro a ha
      have halt : a < width * height * 4 := List.mem_range.1 ha
      have hget := @get?_replicate_of_lt ℚ 0 (width * height * 4) a halt
      simp only [normIdx, hget, Option.some_bind]
      exact normalizeSample_zero gp false (a % 4)
    have := mapOpt_replicate hall
    simpa [normalizeFloat] using this

/-- C4 (a code bug at negative samples): a zero color sample under
perceptual=true quantizes to the defined byte 0, as the claim states; but a
negative color sample makes `pow` return NaN (negative base, non-integer
exponent), the NaN escapes both clamp comparisons, and the float-to-uint8
store is undefined behaviour (`none`) — not the defined 0 byte the claim
requires. -/
theorem normalizeSample_nonpositive_gamma (gp : ℚ → ℚ) :
    normalizeSample gp true 0 0 = some 0 ∧ normalizeSample gp true 0 (-1) = none := by
  constructor
  · exact normalizeSample_zero gp true 0
  · have h1 : ((-1 : ℚ) < 0) := by norm_num
    simp [normalizeSample, cpowInv22, h1]

end DDS

namespace DDS

/-- Inversion of the compressor stage: a committed result means the canonical
image was defined; the boolean result is init AND encode succeeding; success
commits the block buffer, failure leaves the session empty. -/
theorem compressStage_inv {C : Compressor} {params params1 : rdo_bc_params}
    {width height : ℕ} {oimg : Option (List ℕ)} {r : Bool} {st : SessionState}
    (h : compressStage C params width height oimg = some (r, st, params1)) :
    ∃ img, oimg = some img ∧
      params1 = C.initMutate ⟨width, height, img⟩ params ∧
      r = (C.initOk ⟨width, height, img⟩ params &&
           C.encodeOk ⟨width, height, img⟩ (C.initMutate ⟨width, height, img⟩ params)) ∧
      (r = true →
        st = SessionState.encoded width height (blocksBuffer C width height)) ∧
      (r = false → st = SessionState.empty) := by
  cases oimg with
  | none => exact absurd h (by simp [compressStage])
  | some img =>
    refine ⟨img, rfl, ?_⟩
    simp only [compressStage] at h
    by_cases h1 : C.initOk ⟨width, height, img⟩ params = true
    · by_cases h2 : C.encodeOk ⟨width, height, img⟩
          (C.initMutate ⟨width, height, img⟩ params) = true
      · rw [if_pos h1, if_pos h2] at h
        simp only [Option.some.injEq, Prod.mk.injEq] at h
        obtain ⟨hr, hst, hp⟩ := h
        subst hr
        refine ⟨hp.symm, by simp [h1, h2], fun _ => hst.symm, by simp⟩
      · rw [if_pos h1, if_neg h2] at h
        simp only [Option.some.injEq, Prod.mk.injEq] at h
        obtain ⟨hr, hst, hp⟩ := h
        subst hr
        refine ⟨hp.symm, ?_, by simp, fun _ => hst.symm⟩
        simp [h1, Bool.eq_false_iff.2 h2]
    · rw [if_neg h1] at h
      simp only [Option.some.injEq, Prod.mk.injEq] at h
      obtain ⟨hr, hst, hp⟩ := h
      subst hr
      refine ⟨hp.symm, ?_, by simp, fun _ => hst.symm⟩
      simp [Bool.eq_false_iff.2 h1]

/-- A 1x1 all-zero float image normalizes to four zero bytes under either
perceptual flag: concrete run used by several witnesses. -/
theorem normalizeFloat_zero_run (gp : ℚ → ℚ) (b : Bool) :
    normalizeFloat gp b 1 1 [0, 0, 0, 0] = some [0, 0, 0, 0] := by
  have hall : ∀ a ∈ List.range (1 * 1 * 4),
      normIdx gp b [0, 0, 0, 0] a = some 0 := by
    intro a ha
    have ha4 : a < 4 := by simpa using List.mem_range.1 ha
    interval_cases a <;> simp [normIdx, normalizeSample_zero]
  simpa [normalizeFloat] using mapOpt_replicate hall

/-- C5: after every successful encode with dimensions (width, height), the
total block size equals 16 * ceil(width/4) * ceil(height/4), and this is
exactly the byte length of the buffer returned by getBlocks; for example
width = 5, height = 3 yields 32 bytes. -/
theorem totalBlocksSize_after_encode
    (C : Compressor) (gp : ℚ → ℚ) (params params1 : rdo_bc_params)
    (width height : ℕ) (pixels : List ℚ) (st : SessionState)
    (h : bc7enc_encode C gp params width height pixels = some (true, st, params1)) :
    bc7enc_getTotalBlocksSizeInBytes st =
      16 * ((width + 3) / 4) * ((height + 3) / 4) ∧
    (∃ blocks, bc7enc_getBlocks st = some blocks ∧
      blocks.length = bc7enc_getTotalBlocksSizeInBytes st) ∧
    totalBlocksSize 5 3 = 32 := by
  have h' : compressStage C params width height
      (normalizeFloat gp params.m_perceptual width height pixels) =
      some (true, st, params1) := h
  obtain ⟨img, _, _, _, htrue, _⟩ := compressStage_inv h'
  rw [htrue rfl]
  refine ⟨rfl, ⟨blocksBuffer C width height, rfl, ?_⟩, by decide⟩
  simp [blocksBuffer, bc7enc_getTotalBlocksSizeInBytes]

/-- Witness for C5: a concrete successful 1x1 encode through a compressor
that accepts everything. -/
theorem totalBlocksSize_after_encode_witness :
    bc7enc_getTotalBlocksSizeInBytes
        (SessionState.encoded 1 1 (blocksBuffer okCompressor 1 1)) =
      16 * ((1 + 3) / 4) * ((1 + 3) / 4) ∧
    (∃ blocks,
      bc7enc_getBlocks (SessionState.encoded 1 1 (blocksBuffer okCompressor 1 1)) =
        some blocks ∧
      blocks.length = bc7enc_getTotalBlocksSizeInBytes
        (SessionState.encoded 1 1 (blocksBuffer okCompressor 1 1))) ∧
    totalBlocksSize 5 3 = 32 :=
  totalBlocksSize_after_encode okCompressor (fun s => s) (rdo_bc_params.mk false 0)
    (rdo_bc_params.mk false 0) 1 1 [0, 0, 0, 0]
    (SessionState.encoded 1 1 (blocksBuffer okCompressor 1 1))
    (by simp [bc7enc_encode, normalizeFloat_zero_run, compressStage, okCompressor])

end DDS

namespace DDS

/-- Counterexample to C6: with width = 0 the normalization loop body never
runs, so normalization succeeds with an empty canonical image instead of
failing, and the whole encode can even return success — no InvalidDimensions
failure exists in the code. -/
theorem normalize_zero_width_no_error :
    normalizeFloat (fun s => s) true 0 5 [] = some [] ∧
    bc7enc_encode okCompressor (fun s => s) (rdo_bc_params.mk true 0) 0 5 [] =
      some (true, SessionState.encoded 0 5 (blocksBuffer okCompressor 0 5),
        rdo_bc_params.mk true 0) := by
  have h0 : normalizeFloat (fun s => s) true 0 5 [] = some [] := rfl
  exact ⟨h0, by simp [bc7enc_encode, h0, compressStage, okCompressor]⟩

/-- C6 amended: the bindings perform no input validation and no
InvalidDimensions or BufferSizeMismatch error exists; with zero width (or
height) the normalization loop runs zero times and succeeds with an empty
canonical image, and an input buffer shorter than width*height*4 samples is
read out of bounds (undefined behaviour, modelled as `none`) rather than
surfacing an error. -/
theorem normalize_no_input_validation (gp : ℚ → ℚ) (perceptual : Bool) (height : ℕ) :
    normalizeFloat gp perceptual 0 height [] = some [] ∧
    (∀ (width height2 : ℕ) (pixels : List ℚ),
      pixels.length < width * height2 * 4 →
      normalizeFloat gp perceptual width height2 pixels = none) := by
  constructor
  · unfold normalizeFloat
    have hz : 0 * height * 4 = 0 := by simp
    rw [hz]
    rfl
  · intro width height2 pixels hlen
    have hget : normIdx gp perceptual pixels pixels.length = none := by
      simp [normIdx, List.get?_eq_none.2 (le_refl pixels.length)]
    exact mapOpt_none_of_mem (List.mem_range.2 hlen) hget

/-- Witness for C6 amended: a 1x1 image with an empty sample buffer is read
out of bounds. -/
theorem normalize_no_input_validation_witness :
    normalizeFloat (fun s => s) true 1 1 [] = none :=
  (normalize_no_input_validation (fun s => s) true 0).2 1 1 [] (by decide)

/-- Counterexample to C7: at width = height = 65536 the uint32_t product
width*height wraps to 0, the memcpy copies 0 bytes, and the canonical image
does not contain the input bytes: byte 0 is indeterminate, not the input
value 7. -/
theorem byteCanonical_wrap_loses_bytes :
    byteCanonical 65536 65536 (fun _ => 7) 0 = none ∧
    byteCanonical 65536 65536 (fun _ => 7) 0 ≠ some 7 := by decide

/-- C7 amended: for every byte-input image whose pixel count width*height is
below 2^32 (so the uint32_t product does not wrap), every byte of the
canonical image equals the corresponding input byte exactly — the byte path
applies no gamma transform and no quantization, and never reads the
parameters before initializing the compressor. -/
theorem byteCanonical_copies_verbatim (width height : ℕ) (pixels : ℕ → ℕ) (j : ℕ)
    (hwh : width * height < 2 ^ 32) (hj : j < width * height * 4) :
    byteCanonical width height pixels j = some (pixels j) := by
  unfold byteCanonical byteCopyCount
  rw [Nat.mod_eq_of_lt hwh, if_pos hj]

/-- Witness for C7 amended: the spec's 8x4 byte-path scenario with arbitrary
values, checked at flat index 5. -/
theorem byteCanonical_copies_verbatim_witness :
    byteCanonical 8 4 (fun j => (3 * j + 1) % 256) 5 = some 16 :=
  byteCanonical_copies_verbatim 8 4 (fun j => (3 * j + 1) % 256) 5 (by decide)
    (by decide)

/-- C8: whenever the normalization pass is defined, encode commits a boolean
result that is true exactly when the compressor's init and its encoding pass
both succeed, and on a false result the session is left empty with no block
buffer accessible. -/
theorem encode_result_iff_compressor
    (C : Compressor) (gp : ℚ → ℚ) (params : rdo_bc_params) (width height : ℕ)
    (pixels : List ℚ) (img : List ℕ)
    (hn : normalizeFloat gp params.m_perceptual width height pixels = some img) :
    ∃ (r : Bool) (st : SessionState) (params1 : rdo_bc_params),
      bc7enc_encode C gp params width height pixels = some (r, st, params1) ∧
      (r = true ↔ (C.initOk ⟨width, height, img⟩ params = true ∧
        C.encodeOk ⟨width, height, img⟩
          (C.initMutate ⟨width, height, img⟩ params) = true)) ∧
      (r = false → st = SessionState.empty ∧ bc7enc_getBlocks st = none) := by
  unfold bc7enc_encode
  rw [hn]
  by_cases h1 : C.initOk ⟨width, height, img⟩ params = true
  · by_cases h2 : C.encodeOk ⟨width, height, img⟩
        (C.initMutate ⟨width, height, img⟩ params) = true
    · refine ⟨true, SessionState.encoded width height (blocksBuffer C width height),
        C.initMutate ⟨width, height, img⟩ params, ?_, ?_, ?_⟩
      · simp [compressStage, h1, h2]
      · simp [h1, h2]
      · simp
    · refine ⟨false, SessionState.empty, C.initMutate ⟨width, height, img⟩ params,
        ?_, ?_, ?_⟩
      · simp [compressStage, h1, h2]
      · simp [h2]
      · intro _
        exact ⟨rfl, rfl⟩
  · refine ⟨false, SessionState.empty, C.initMutate ⟨width, height, img⟩ params,
      ?_, ?_, ?_⟩
    · simp [compressStage, h1]
    · simp [h1]
    · intro _
      exact ⟨rfl, rfl⟩

/-- Witness for C8: a concrete 1x1 encode through a compressor whose init
fails; the result is false and the session stays empty. -/
theorem encode_result_iff_compressor_witness :
    ∃ (r : Bool) (st : SessionState) (params1 : rdo_bc_params),
      bc7enc_encode failCompressor (fun s => s) (rdo_bc_params.mk false 0) 1 1
          [0, 0, 0, 0] = some (r, st, params1) ∧
      (r = true ↔ (failCompressor.initOk ⟨1, 1, [0, 0, 0, 0]⟩
          (rdo_bc_params.mk false 0) = true ∧
        failCompressor.encodeOk ⟨1, 1, [0, 0, 0, 0]⟩
          (failCompressor.initMutate ⟨1, 1, [0, 0, 0, 0]⟩
            (rdo_bc_params.mk false 0)) = true)) ∧
      (r = false → st = SessionState.empty ∧ bc7enc_getBlocks st = none) :=
  encode_result_iff_compressor failCompressor (fun s => s) (rdo_bc_params.mk false 0)
    1 1 [0, 0, 0, 0] [0, 0, 0, 0] (normalizeFloat_zero_run (fun s => s) false)

/-- Counterexample to C9: on a fresh session (before any encode) the accessors
do not fail with NotEncoded — they pass the external encoder's state through,
returning the null block pointer (`none`) and total size 0. -/
theorem getBlocks_empty_returns_null :
    bc7enc_getBlocks bc7enc_init = none ∧
    bc7enc_getTotalBlocksSizeInBytes bc7enc_init = 0 :=
  ⟨rfl, rfl⟩

/-- C9 amended: the accessors are bare pass-throughs with no NotEncoded error:
in the Empty state getBlocks returns the null pointer (`none`) and
getTotalBlockSizeInBytes returns 0 — not stale block data — and only in the
Encoded state do they return the owned buffer and its size. -/
theorem accessors_pass_through_state :
    bc7enc_getBlocks bc7enc_init = none ∧
    bc7enc_getTotalBlocksSizeInBytes bc7enc_init = 0 ∧
    (∀ (w h : ℕ) (blocks : List ℕ),
      bc7enc_getBlocks (SessionState.encoded w h blocks) = some blocks ∧
      bc7enc_getTotalBlocksSizeInBytes (SessionState.encoded w h blocks) =
        totalBlocksSize w h) :=
  ⟨rfl, rfl, fun _ _ _ => ⟨rfl, rfl⟩⟩

/-- C10: the byte-input variant copies (width*height mod 2^32) * 4 bytes:
equal to width*height*4 whenever the pixel count is below 2^32, strictly
fewer when it is at least 2^32; the float variant indexes in size_t and a
defined normalization always produces exactly width*height*4 bytes. -/
theorem byteCopyCount_wraps (width height : ℕ) :
    (width * height < 2 ^ 32 → byteCopyCount width height = width * height * 4) ∧
    (2 ^ 32 ≤ width * height → byteCopyCount width height < width * height * 4) ∧
    (∀ (gp : ℚ → ℚ) (perceptual : Bool) (pixels : List ℚ) (r : List ℕ),
      normalizeFloat gp perceptual width height pixels = some r →
      r.length = width * height * 4) := by
  refine ⟨?_, ?_, ?_⟩
  · intro h
    unfold byteCopyCount
    rw [Nat.mod_eq_of_lt h]
  · intro h
    have hlt : width * height % 2 ^ 32 < width * height :=
      lt_of_lt_of_le (Nat.mod_lt _ (by norm_num)) h
    have hmul : (width * height % 2 ^ 32) * 4 < width * height * 4 := by omega
    simpa [byteCopyCount] using hmul
  · intro gp perceptual pixels r h
    have hlen := mapOpt_length h
    simpa using hlen

/-- Witness for C10: 2x3 does not wrap (24 bytes copied); 65536x65536 wraps
and copies fewer than 65536*65536*4 bytes (in fact zero). -/
theorem byteCopyCount_wraps_witness :
    byteCopyCount 2 3 = 2 * 3 * 4 ∧
    byteCopyCount 65536 65536 < 65536 * 65536 * 4 :=
  ⟨(byteCopyCount_wraps 2 3).1 (by decide),
   (byteCopyCount_wraps 65536 65536).2.1 (by decide)⟩

end DDS
